import Mathlib

/-!
Shallow embedding of the `logging_helpers` Python package
(`logging_helpers/__init__.py`), together with proofs of the spec's claims.

The package has two independent mechanisms:

* `logging_restore` — a `@contextlib.contextmanager` generator that snapshots
  the root logger's handler list and effective level on entry and, after the
  `yield`, removes every currently-registered handler, re-adds the snapshot
  handlers in order, and resets the level.  Note the generator body is a bare
  `yield` with no `try`/`finally`.
* `caller_name` / `_L` — stack introspection producing a dotted
  `module.class.method` identifier, and a convenience wrapper returning
  `logging.getLogger(caller_name(skip + 1))`.
-/

namespace LoggingHelpers

/-- Observable global logging configuration of the root logger: the ordered
list of registered handler references (handlers identified by reference
identity, modelled as `Nat`) and the root severity level.  The standard
facility's `addHandler` never registers a handler twice, so a well-formed
root configuration has a duplicate-free handler list. -/
structure LoggingState where
  handlers : List Nat
  level : Int
  deriving DecidableEq, Repr

/-- `logging.root.getEffectiveLevel()`: for the root logger this returns
`root.level` when nonzero and `NOTSET = 0` otherwise, i.e. always
`root.level` itself. -/
def getEffectiveLevel (s : LoggingState) : Int :=
  s.level

/-- `logging.root.setLevel(l)`. -/
def setLevel (s : LoggingState) (l : Int) : LoggingState :=
  { s with level := l }

/-- `logging.root.addHandler(h)`: appends `h` unless already registered. -/
def addHandler (s : LoggingState) (h : Nat) : LoggingState :=
  if h ∈ s.handlers then s else { s with handlers := s.handlers ++ [h] }

/-- `logging.root.removeHandler(h)`: removes the first occurrence of `h`
from the handler list (a no-op when `h` is not registered). -/
def removeHandler (s : LoggingState) (h : Nat) : LoggingState :=
  { s with handlers := s.handlers.erase h }

/-- The snapshot captured at guard entry: `handlers = logging.root.handlers[:]`
(a copy, by value) and `level = logging.root.getEffectiveLevel()`. -/
structure Snapshot where
  handlers : List Nat
  level : Int
  deriving DecidableEq, Repr

/-- Entry phase of `logging_restore` (lines 38–42): capture the snapshot and,
when `clear_handlers` is true, remove each captured handler from the root
logger.  Returns the snapshot together with the state in force when control
is yielded to the block. -/
def logging_restore_enter (clear_handlers : Bool) (s : LoggingState) :
    Snapshot × LoggingState :=
  let handlers := s.handlers
  let level := getEffectiveLevel s
  let s₁ := if clear_handlers then handlers.foldl removeHandler s else s
  (⟨handlers, level⟩, s₁)

/-- Exit phase of `logging_restore` (lines 44–47): remove every handler in a
copy of the current handler list, re-add the snapshot handlers in order, then
set the level to the snapshot level. -/
def logging_restore_exit (snap : Snapshot) (s : LoggingState) : LoggingState :=
  let handlers_to_remove := s.handlers
  let s₃ := handlers_to_remove.foldl removeHandler s
  let s₄ := snap.handlers.foldl addHandler s₃
  setLevel s₄ snap.level

/-- One full run of `with logging_restore(clear_handlers): body`.  The block
`body` transforms the state and either completes normally (`none`) or raises
an exception (`some e`, exceptions identified by `Nat`).  Because the
generator body is a bare `yield` with no `try`/`finally`, an exception thrown
into the generator by `contextlib` propagates out immediately: the code after
the `yield` does not run, and the `with` statement re-raises the same
exception. -/
def logging_restore_run (clear_handlers : Bool)
    (body : LoggingState → LoggingState × Option Nat) (s : LoggingState) :
    LoggingState × Option Nat :=
  let (snap, s₁) := logging_restore_enter clear_handlers s
  match body s₁ with
  | (s₂, some e) => (s₂, some e)
  | (s₂, none) => (logging_restore_exit snap s₂, none)

/-- One active stack frame, carrying exactly the attributes `caller_name`
reads: the code object's source filename and name, the runtime class name of
the value bound to the local name `self` when such a binding exists in
`f_locals`, and the `__name__` of the module `inspect.getmodule` resolves for
the frame (`none` when the module is not determinable, e.g. a frame executed
directly in a console). -/
structure Frame where
  co_filename : String
  co_name : String
  self_class : Option String
  module : Option String
  deriving DecidableEq, Repr

/-- Python `str.split(sep)` on a one-character separator, over the character
list: every maximal run between separators becomes one (possibly empty)
group, and the result is never empty. -/
def splitOnCharAux (sep : Char) : List Char → List (List Char)
  | [] => [[]]
  | c :: rest =>
    if c = sep then [] :: splitOnCharAux sep rest
    else
      match splitOnCharAux sep rest with
      | [] => [[c]]
      | g :: gs => (c :: g) :: gs

/-- `s.split(os.sep)` with `os.sep = '/'` (POSIX). -/
def splitSep (s : String) : List String :=
  (splitOnCharAux '/' s.toList).map String.mk

/-- `os.path.normpath` on a POSIX system (`os.sep = '/'`): collapse repeated
separators, drop `.` components, and resolve `..` components where possible,
preserving one or two initial slashes. -/
def normpath (path : String) : String :=
  if path = "" then "."
  else
    let initial_slashes : Nat :=
      if ['/'].isPrefixOf path.toList then
        if (['/', '/'].isPrefixOf path.toList) ∧
            ¬ (['/', '/', '/'].isPrefixOf path.toList) then 2
        else 1
      else 0
    let comps := splitSep path
    let new_comps := comps.foldl
      (fun acc comp =>
        if comp = "" ∨ comp = "." then acc
        else if comp ≠ ".." ∨ (initial_slashes = 0 ∧ acc = []) ∨
                (acc ≠ [] ∧ acc.getLastD "" = "..") then acc ++ [comp]
        else if acc ≠ [] then acc.dropLast
        else acc)
      []
    let joined := String.intercalate "/" new_comps
    let full := String.mk (List.replicate initial_slashes '/') ++ joined
    if full = "" then "." else full

/-- Index (from the front) of the last occurrence of `'.'` in a character
list, when one exists. -/
def lastDotIdx (cs : List Char) : Option Nat :=
  match cs.reverse.findIdx? (· = '.') with
  | none => none
  | some j => some (cs.length - 1 - j)

/-- The root part of `os.path.splitext(p)` for a path component containing no
separator: everything before the last `'.'`, unless every character before
that dot is itself a dot (leading-dot filenames such as `.bashrc` keep their
name intact), or there is no dot at all. -/
def splitextRoot (p : String) : String :=
  let cs := p.toList
  match lastDotIdx cs with
  | none => p
  | some i => if (cs.take i).all (· = '.') then p else String.mk (cs.take i)

/-- The frozen-executable fast path (lines 98–101): normalize the code
object's filename, split it on `os.sep`, and dot-join every leading directory
component followed by the extension-stripped final component. -/
def frozenModuleName (filename : String) : String :=
  let path_parts := splitSep (normpath filename)
  String.intercalate "."
    (path_parts.dropLast ++ [splitextRoot (path_parts.getLastD "")])

/-- Name construction for the resolved target frame (lines 91–117): the
module component (from the frozen fast path, or from `inspect.getmodule` when
it resolves, omitted otherwise), then the class of a bound `self` local when
present, then the code name unless it is the top-level `"<module>"`, joined
with `"."`. -/
def buildName (frozen : Bool) (f : Frame) : String :=
  let name : List String := []
  let name := if frozen then name ++ [frozenModuleName f.co_filename]
    else match f.module with
      | some m => name ++ [m]
      | none => name
  let name := match f.self_class with
    | some c => name ++ [c]
    | none => name
  let name := if f.co_name ≠ "<module>" then name ++ [f.co_name] else name
  String.intercalate "." name

/-- Python list indexing `l[i]`: non-negative indices count from the front,
negative indices count from the back, and anything out of range raises
`IndexError` (modelled as `none`). -/
def pyIndex {α : Type} (l : List α) (i : Int) : Option α :=
  if 0 ≤ i then l.get? i.toNat
  else if 0 ≤ (l.length : Int) + i then l.get? ((l.length : Int) + i).toNat
  else none

/-- `caller_name(skip)` (lines 63–119).  `stack` is the frame chain built by
`stack_(sys._getframe(1))`: index 0 is the immediate caller of `caller_name`,
walking outward via `f_back`.  `frozen` models `getattr(sys, 'frozen',
False)`.  The guard `len(stack) < start + 1` returns `''`; otherwise
`stack[start]` is a Python indexing operation that can raise `IndexError`
(modelled as `Except.error ()`). -/
def caller_name (frozen : Bool) (stack : List Frame) (skip : Int) :
    Except Unit String :=
  let start : Int := 0 + skip
  if (stack.length : Int) < start + 1 then .ok ""
  else
    match pyIndex stack start with
    | none => .error ()
    | some parentframe => .ok (buildName frozen parentframe)

/-- A logger object from the facility's name-keyed registry; only its name is
observable here. -/
structure Logger where
  name : String
  deriving DecidableEq, Repr

/-- `logging.getLogger(name)`: the registry yields the logger registered
under `name` (creating it on first use), so the returned logger's name is
exactly the requested string. -/
def getLogger (n : String) : Logger :=
  ⟨n⟩

/-- `_L(skip=0)` (lines 50–52): `logging.getLogger(caller_name(skip + 1))`;
the Python parameter defaults to `0`.  When `caller_name` executes,
`sys._getframe(1)` is `_L`'s own frame, so the stack it sees is `_L`'s frame
consed onto the chain of `_L`'s caller. -/
def _L (frozen : Bool) (lFrame : Frame) (callerStack : List Frame)
    (skip : Nat) : Except Unit Logger :=
  (caller_name frozen (lFrame :: callerStack) ((skip : Int) + 1)).map getLogger

/-! ### Helper lemmas -/

/-- Folding `removeHandler` is a pure fold of `List.erase` on the handler
list, leaving the level untouched. -/
theorem foldl_removeHandler_eq (l : List Nat) :
    ∀ s : LoggingState,
      l.foldl removeHandler s = ⟨l.foldl List.erase s.handlers, s.level⟩ := by
  induction l with
  | nil => intro s; rfl
  | cons a t ih =>
    intro s
    simpa [removeHandler] using ih (removeHandler s a)

/-- Erasing, in order, every element of a copy of a list from the list itself
leaves it empty (this is what the exit phase's list comprehension over
`handlers_to_remove` does). -/
theorem foldl_erase_self : ∀ l : List Nat, l.foldl List.erase l = [] := by
  intro l
  induction l with
  | nil => rfl
  | cons a t ih =>
    show List.foldl List.erase ((a :: t).erase a) t = []
    rw [List.erase_cons_head]
    exact ih

/-- Folding `addHandler` is a pure fold of conditional append on the handler
list, leaving the level untouched. -/
theorem foldl_addHandler_eq (l : List Nat) :
    ∀ s : LoggingState,
      l.foldl addHandler s =
        ⟨l.foldl (fun hs h => if h ∈ hs then hs else hs ++ [h]) s.handlers,
         s.level⟩ := by
  induction l with
  | nil => intro s; rfl
  | cons a t ih =>
    intro s
    by_cases hmem : a ∈ s.handlers
    · simpa [addHandler, hmem] using ih (addHandler s a)
    · simpa [addHandler, hmem] using ih (addHandler s a)

/-- Re-adding a duplicate-free batch of handlers disjoint from the current
list appends exactly that batch, in order. -/
theorem foldl_add_of_disjoint :
    ∀ (l acc : List Nat), l.Nodup → (∀ h ∈ l, h ∉ acc) →
      l.foldl (fun hs h => if h ∈ hs then hs else hs ++ [h]) acc = acc ++ l := by
  intro l
  induction l with
  | nil => intro acc _ _; simp
  | cons a t ih =>
    intro acc hnd hdisj
    have ha : a ∉ acc := hdisj a (by simp)
    have hat : a ∉ t := (List.nodup_cons.mp hnd).1
    have hnd' : t.Nodup := (List.nodup_cons.mp hnd).2
    have hdisj' : ∀ h ∈ t, h ∉ acc ++ [a] := by
      intro h hht
      have h1 : h ∉ acc := hdisj h (by simp [hht])
      have h2 : h ≠ a := fun he => hat (he ▸ hht)
      simp [h1, h2]
    calc (a :: t).foldl (fun hs h => if h ∈ hs then hs else hs ++ [h]) acc
        = t.foldl (fun hs h => if h ∈ hs then hs else hs ++ [h]) (acc ++ [a]) := by
          simp [ha]
      _ = (acc ++ [a]) ++ t := ih (acc ++ [a]) hnd' hdisj'
      _ = acc ++ (a :: t) := by simp

/-- The exit phase reinstates exactly the snapshot: whatever the current
state, after removal of every live handler, re-registration of the snapshot
handlers in order, and the level reset, the configuration equals the
snapshot's captured values (for a duplicate-free snapshot, as the logging
facility guarantees). -/
theorem logging_restore_exit_eq (snap : Snapshot) (s : LoggingState)
    (h : snap.handlers.Nodup) :
    logging_restore_exit snap s = ⟨snap.handlers, snap.level⟩ := by
  show setLevel (snap.handlers.foldl addHandler (s.handlers.foldl removeHandler s))
      snap.level = _
  rw [foldl_removeHandler_eq, foldl_erase_self, foldl_addHandler_eq]
  rw [foldl_add_of_disjoint snap.handlers [] h (by intro x _; simp)]
  rfl

/-- Entry with `clear_handlers=True` removes every captured handler and
nothing else: the yielded state has no handlers and the entry level. -/
theorem logging_restore_enter_clear (s : LoggingState) :
    (logging_restore_enter true s).2 = ⟨[], s.level⟩ := by
  show s.handlers.foldl removeHandler s = _
  rw [foldl_removeHandler_eq, foldl_erase_self]

/-- When the requested depth is at least the stack height the guard
`len(stack) < start + 1` fires and `caller_name` returns `''`. -/
theorem caller_name_underflow (frozen : Bool) (stack : List Frame)
    (skip : Int) (h : (stack.length : Int) ≤ skip) :
    caller_name frozen stack skip = .ok "" := by
  unfold caller_name
  rw [if_pos]
  omega

/-- When index `k` is in range, `caller_name` resolves `stack[k]` and builds
its name. -/
theorem caller_name_resolves (frozen : Bool) (stack : List Frame) (k : Nat)
    (f : Frame) (h : stack.get? k = some f) :
    caller_name frozen stack (k : Int) = .ok (buildName frozen f) := by
  have hk : k < stack.length := by
    by_contra hge
    rw [List.get?_eq_none.mpr (by omega)] at h
    exact Option.noConfusion h
  unfold caller_name
  rw [if_neg (by omega)]
  unfold pyIndex
  rw [if_pos (by positivity)]
  simp only [Int.add_zero, Int.zero_add, Int.toNat_ofNat, Int.toNat_natCast]
  rw [h]

/-- `buildName` laid out as one concatenation of its three component groups,
in construction order: module, then instance class, then code name. -/
theorem buildName_eq (frozen : Bool) (f : Frame) :
    buildName frozen f = String.intercalate "."
      ((if frozen then [frozenModuleName f.co_filename] else f.module.toList) ++
        f.self_class.toList ++
        (if f.co_name = "<module>" then [] else [f.co_name])) := by
  unfold buildName
  cases frozen <;> cases hm : f.module <;> cases hs : f.self_class <;>
    by_cases hc : f.co_name = "<module>" <;> simp [hm, hs, hc]

/-- `String.intercalate.go` only ever appends to its accumulator. -/
theorem intercalate_go_exists_append (sep : String) :
    ∀ (as : List String) (acc : String),
      ∃ t, String.intercalate.go acc sep as = acc ++ t := by
  intro as
  induction as with
  | nil => intro acc; exact ⟨"", (String.append_empty acc).symm⟩
  | cons a as ih =>
    intro acc
    obtain ⟨t, ht⟩ := ih (acc ++ sep ++ a)
    refine ⟨sep ++ a ++ t, ?_⟩
    show String.intercalate.go (acc ++ sep ++ a) sep as = _
    rw [ht, String.append_assoc, String.append_assoc, String.append_assoc]

/-- A dot-joined nonempty component list begins with its head component. -/
theorem intercalate_cons_exists_append (a : String) (l : List String) :
    ∃ t, String.intercalate "." (a :: l) = a ++ t :=
  intercalate_go_exists_append "." l a

/-- Dot-joining `[C, m]` is `C ++ "." ++ m`. -/
theorem intercalate_dot_pair (C m : String) :
    String.intercalate "." [C, m] = C ++ "." ++ m := rfl

/-- Dot-joining `[M, C, m]` groups as a prefix `M ++ "."` followed by
`C ++ "." ++ m`. -/
theorem intercalate_dot_triple (M C m : String) :
    String.intercalate "." [M, C, m] = (M ++ ".") ++ (C ++ "." ++ m) := by
  show ((M ++ "." ++ C) ++ "." ++ m) = _
  rw [String.append_assoc (M ++ ".") C ".", String.append_assoc (M ++ ".") (C ++ ".") m]

/-! ### Claim theorems -/

/-- C1: the claim states that when the guarded block raises, restoration of
the captured handler list and level runs before the error propagates.  The
code violates this: the generator body is a bare `yield` with no
`try`/`finally`, so the exception thrown into the generator skips the
restoration code entirely.  Concretely, starting from handlers `[7]` and
level `10`, a block that registers handler `8`, sets the level to `20` and
then raises exception `5` leaves the configuration at handlers `[7, 8]` and
level `20` — not restored — while the exception itself does propagate
unchanged. -/
theorem logging_restore_no_restore_on_error :
    logging_restore_run false
        (fun t => (setLevel (addHandler t 8) 20, some 5)) ⟨[7], 10⟩
      = (⟨[7, 8], 20⟩, some 5) ∧
    (⟨[7, 8], 20⟩ : LoggingState) ≠ ⟨[7], 10⟩ := by
  exact ⟨rfl, by decide⟩

/-- C2: for every block body (covering arbitrary handler additions,
removals, reorderings and level changes) that completes normally, the
post-scope configuration equals exactly the entry configuration — handler
list with identity and order, and level — and the snapshot taken at entry is
exactly the entry values, independent of the body. -/
theorem logging_restore_restores_after_mutations
    (body : LoggingState → LoggingState) (s : LoggingState)
    (h : s.handlers.Nodup) :
    logging_restore_run false (fun t => (body t, none)) s = (s, none) ∧
    (logging_restore_enter false s).1 = ⟨s.handlers, s.level⟩ := by
  constructor
  · show (logging_restore_exit ⟨s.handlers, s.level⟩ (body s), none) = (s, none)
    rw [logging_restore_exit_eq ⟨s.handlers, s.level⟩ (body s) h]
  · rfl

/-- C2 witness: a concrete scope that adds handler `9` and moves the level
to `42` restores handlers `[3, 7]` and level `10` on normal exit. -/
theorem logging_restore_restores_after_mutations_witness :
    ([3, 7] : List Nat).Nodup ∧
    logging_restore_run false
        (fun t => (setLevel (addHandler t 9) 42, none)) ⟨[3, 7], 10⟩
      = (⟨[3, 7], 10⟩, none) :=
  ⟨by decide,
    (logging_restore_restores_after_mutations
      (fun u => setLevel (addHandler u 9) 42) ⟨[3, 7], 10⟩ (by decide)).1⟩

/-- C4: entering with `clear_handlers = true` leaves the root with an empty
handler list and an unchanged level immediately after entry, and a normally
completing scope gets the pre-existing handlers re-registered in their
original order after exit. -/
theorem clear_handlers_empties_then_restores (s : LoggingState)
    (body : LoggingState → LoggingState) (h : s.handlers.Nodup) :
    (logging_restore_enter true s).2.handlers = [] ∧
    (logging_restore_enter true s).2.level = s.level ∧
    (logging_restore_run true (fun t => (body t, none)) s).1.handlers
      = s.handlers := by
  refine ⟨?_, ?_, ?_⟩
  · rw [logging_restore_enter_clear]
  · rw [logging_restore_enter_clear]
  · show (logging_restore_exit ⟨s.handlers, s.level⟩
        (body (logging_restore_enter true s).2)).handlers = s.handlers
    rw [logging_restore_exit_eq ⟨s.handlers, s.level⟩ _ h]

/-- C4 witness: from handlers `[4, 6]` and level `10`, entry with
`clear_handlers = true` yields no handlers and level `10`, and a scope whose
body adds handler `9` exits with handlers `[4, 6]` again. -/
theorem clear_handlers_empties_then_restores_witness :
    ([4, 6] : List Nat).Nodup ∧
    ((logging_restore_enter true ⟨[4, 6], 10⟩).2.handlers = [] ∧
     (logging_restore_enter true ⟨[4, 6], 10⟩).2.level = 10 ∧
     (logging_restore_run true (fun t => (addHandler t 9, none))
        ⟨[4, 6], 10⟩).1.handlers = [4, 6]) :=
  ⟨by decide,
    clear_handlers_empties_then_restores ⟨[4, 6], 10⟩
      (fun u => addHandler u 9) (by decide)⟩

/-- C8: a guard around an empty block (body the identity, completing
normally) leaves the observable configuration — handler list identity and
order, and level — exactly as before entry. -/
theorem logging_restore_noop_on_empty_block (s : LoggingState)
    (h : s.handlers.Nodup) :
    logging_restore_run false (fun t => (t, none)) s = (s, none) := by
  show (logging_restore_exit ⟨s.handlers, s.level⟩ s, none) = (s, none)
  rw [logging_restore_exit_eq ⟨s.handlers, s.level⟩ s h]

/-- C8 witness: the empty scope is a no-op on handlers `[2, 5]` and level
`30`. -/
theorem logging_restore_noop_on_empty_block_witness :
    ([2, 5] : List Nat).Nodup ∧
    logging_restore_run false (fun t => (t, none)) ⟨[2, 5], 30⟩
      = (⟨[2, 5], 30⟩, none) :=
  ⟨by decide, logging_restore_noop_on_empty_block ⟨[2, 5], 30⟩ (by decide)⟩

/-- When the resolved frame has an instance `self` binding of class `C` and a
code name `m` that is not `"<module>"`, the built identity ends in `C.m`. -/
theorem buildName_ends_with (frozen : Bool) (f : Frame) (C m : String)
    (hC : f.self_class = some C) (hm : f.co_name = m)
    (hmod : m ≠ "<module>") :
    ∃ p, buildName frozen f = p ++ (C ++ "." ++ m) := by
  rw [buildName_eq, hC, hm, if_neg hmod]
  cases frozen with
  | true =>
    refine ⟨frozenModuleName f.co_filename ++ ".", ?_⟩
    show String.intercalate "." [frozenModuleName f.co_filename, C, m] = _
    exact intercalate_dot_triple _ C m
  | false =>
    cases hmodule : f.module with
    | none =>
      refine ⟨"", ?_⟩
      show String.intercalate "." [C, m] = _
      rw [intercalate_dot_pair, String.empty_append]
    | some M =>
      refine ⟨M ++ ".", ?_⟩
      show String.intercalate "." [M, C, m] = _
      exact intercalate_dot_triple M C m

/-- C3: whenever `skip` is at least the number of available stack frames
(the requested frame does not exist), `caller_name` returns the empty string
and raises nothing. -/
theorem caller_name_empty_when_skip_exceeds_depth (frozen : Bool)
    (stack : List Frame) (skip : Int)
    (h : (stack.length : Int) ≤ skip) :
    caller_name frozen stack skip = .ok "" :=
  caller_name_underflow frozen stack skip h

/-- C3 witness: a two-frame stack with `skip = 5` yields `''`. -/
theorem caller_name_empty_when_skip_exceeds_depth_witness :
    ((([⟨"a.py", "f", none, none⟩, ⟨"b.py", "g", none, none⟩] :
        List Frame).length : Int) ≤ 5) ∧
    caller_name false
        [⟨"a.py", "f", none, none⟩, ⟨"b.py", "g", none, none⟩] 5 = .ok "" :=
  ⟨by decide,
    caller_name_empty_when_skip_exceeds_depth false
      [⟨"a.py", "f", none, none⟩, ⟨"b.py", "g", none, none⟩] 5 (by decide)⟩

/-- C5: the identity for a resolved frame is the dot-join, in this order, of
the module component (always present when frozen, present exactly when
`inspect.getmodule` resolves otherwise), then the class of the `self` local
when bound, then the code name unless it is `"<module>"`; in particular a
method `m` on class `C` yields an identity ending in `"C.m"`. -/
theorem caller_name_component_order (frozen : Bool) (stack : List Frame)
    (skip : Nat) (f : Frame) (h : stack.get? skip = some f) :
    caller_name frozen stack (skip : Int) = .ok (String.intercalate "."
      ((if frozen then [frozenModuleName f.co_filename] else f.module.toList) ++
        f.self_class.toList ++
        (if f.co_name = "<module>" then [] else [f.co_name]))) ∧
    (∀ C m, f.self_class = some C → f.co_name = m → m ≠ "<module>" →
      ∃ p, caller_name frozen stack (skip : Int) = .ok (p ++ (C ++ "." ++ m))) := by
  have hres := caller_name_resolves frozen stack skip f h
  refine ⟨by rw [hres, buildName_eq], ?_⟩
  intro C m hC hm hmod
  obtain ⟨p, hp⟩ := buildName_ends_with frozen f C m hC hm hmod
  exact ⟨p, by rw [hres, hp]⟩

/-- C5 witness: a method `m` of class `C` in module `mod` resolves to
`"mod.C.m"`, which ends in `"C.m"`. -/
theorem caller_name_component_order_witness :
    caller_name false [⟨"x.py", "m", some "C", some "mod"⟩] ((0 : Nat) : Int)
      = .ok "mod.C.m" := by
  have h := (caller_name_component_order false
    [⟨"x.py", "m", some "C", some "mod"⟩] 0
    ⟨"x.py", "m", some "C", some "mod"⟩ rfl).1
  exact h

/-- `caller_name` seen through one extra stack frame with one extra level of
skip resolves the same frame: consing a frame and adding `1` to the skip is
the identity on the result. -/
theorem caller_name_cons_succ (frozen : Bool) (lf : Frame)
    (st : List Frame) (skip : Nat) :
    caller_name frozen (lf :: st) ((skip : Int) + 1)
      = caller_name frozen st (skip : Int) := by
  by_cases hle : st.length ≤ skip
  · rw [caller_name_underflow frozen st _ (by exact_mod_cast hle),
      caller_name_underflow frozen (lf :: st) _
        (by simp only [List.length_cons]; push_cast; omega)]
  · push_neg at hle
    obtain ⟨f, hf⟩ : ∃ f, st.get? skip = some f := by
      cases hg : st.get? skip with
      | none => exact absurd (List.get?_eq_none.mp hg) (by omega)
      | some f => exact ⟨f, rfl⟩
    have h2 : (lf :: st).get? (skip + 1) = some f := by simpa using hf
    rw [caller_name_resolves frozen st skip f hf,
      show ((skip : Int) + 1) = ((skip + 1 : Nat) : Int) by push_cast; ring,
      caller_name_resolves frozen (lf :: st) (skip + 1) f h2]

/-- C6: `_L` adds exactly one frame of skip before delegating — it evaluates
`caller_name(skip + 1)` over a stack that has its own frame consed on — so
its result is exactly the registry logger for `caller_name`'s output at
depth `skip` in the caller's stack, and that logger's name is the resolved
identity itself. -/
theorem L_composes_caller_name (frozen : Bool) (lf : Frame)
    (st : List Frame) (skip : Nat) :
    _L frozen lf st skip = (caller_name frozen st (skip : Int)).map getLogger ∧
    (∀ s', caller_name frozen st (skip : Int) = .ok s' →
      _L frozen lf st skip = .ok ⟨s'⟩) ∧
    (∀ n, (getLogger n).name = n) := by
  have hmain : _L frozen lf st skip
      = (caller_name frozen st (skip : Int)).map getLogger := by
    show (caller_name frozen (lf :: st) ((skip : Int) + 1)).map getLogger = _
    rw [caller_name_cons_succ]
  refine ⟨hmain, ?_, fun n => rfl⟩
  intro s' hs'
  rw [hmain, hs']
  rfl

/-- C7: module resolution failure only drops the module component: a
module-level function (no `self` binding, code name not `"<module>"`)
resolved at `skip = 0` yields `"<module_name>.f"` when the module resolves
and plain `"f"` when it does not, succeeding in both cases. -/
theorem caller_name_module_fallback (stack : List Frame) (f : Frame)
    (h : stack.get? 0 = some f) (hself : f.self_class = none)
    (hname : f.co_name ≠ "<module>") :
    (f.module = none → caller_name false stack 0 = .ok f.co_name) ∧
    (∀ M, f.module = some M →
      caller_name false stack 0 = .ok (M ++ "." ++ f.co_name)) := by
  have hres := caller_name_resolves false stack 0 f h
  constructor
  · intro hm
    rw [show (0 : Int) = ((0 : Nat) : Int) from rfl, hres, buildName_eq]
    simp only [hm, hself, hname, Option.toList_none, Bool.false_eq_true,
      if_false, if_neg hname, List.nil_append, List.append_nil]
    rfl
  · intro M hm
    rw [show (0 : Int) = ((0 : Nat) : Int) from rfl, hres, buildName_eq]
    simp only [hm, hself, hname, if_false, Option.toList_some, Option.toList_none,
      Bool.false_eq_true, if_neg hname, List.nil_append, List.append_nil]
    show Except.ok (String.intercalate "." [M, f.co_name]) = _
    rw [intercalate_dot_pair]

/-- C7 witness: the same function frame resolves to `"mod.f"` with a module
and to `"f"` without one. -/
theorem caller_name_module_fallback_witness :
    caller_name false [⟨"f.py", "f", none, none⟩] 0 = .ok "f" ∧
    caller_name false [⟨"f.py", "f", none, some "mod"⟩] 0 = .ok "mod.f" :=
  ⟨(caller_name_module_fallback [⟨"f.py", "f", none, none⟩]
      ⟨"f.py", "f", none, none⟩ rfl rfl (by decide)).1 rfl,
    (caller_name_module_fallback [⟨"f.py", "f", none, some "mod"⟩]
      ⟨"f.py", "f", none, some "mod"⟩ rfl rfl (by decide)).2 "mod" rfl⟩

/-- C9: the underflow guard only protects upward.  For a negative skip
`-n` (with `n > 0`) the guard `len(stack) < start + 1` is false; when
`n ≤ len(stack)` the lookup silently resolves `stack[len - n]` — the frame
counted from the outermost end, by Python negative indexing — and when
`n > len(stack)` the lookup raises `IndexError` instead of returning a
string. -/
theorem caller_name_negative_skip (frozen : Bool) (stack : List Frame)
    (n : Nat) (hn : 0 < n) :
    (¬ ((stack.length : Int) < (0 + -(n : Int)) + 1)) ∧
    (∀ f, stack.get? (stack.length - n) = some f → n ≤ stack.length →
      caller_name frozen stack (-(n : Int)) = .ok (buildName frozen f)) ∧
    (stack.length < n → caller_name frozen stack (-(n : Int)) = .error ()) := by
  refine ⟨by omega, ?_, ?_⟩
  · intro f hf hle
    unfold caller_name
    rw [if_neg (by omega)]
    unfold pyIndex
    rw [if_neg (by omega), if_pos (by omega)]
    rw [show ((stack.length : Int) + (0 + -(n : Int))).toNat
        = stack.length - n by omega]
    rw [hf]
  · intro hlt
    unfold caller_name
    rw [if_neg (by omega)]
    unfold pyIndex
    rw [if_neg (by omega), if_neg (by omega)]

/-- C9 witness: on a two-frame stack, skip `-1` resolves the outermost
frame's name and skip `-3` raises `IndexError`. -/
theorem caller_name_negative_skip_witness :
    caller_name false
        [⟨"a.py", "f", none, none⟩, ⟨"b.py", "g", none, none⟩] (-(1 : Int))
      = .ok (buildName false ⟨"b.py", "g", none, none⟩) ∧
    caller_name false
        [⟨"a.py", "f", none, none⟩, ⟨"b.py", "g", none, none⟩] (-(3 : Int))
      = .error () :=
  ⟨(caller_name_negative_skip false
      [⟨"a.py", "f", none, none⟩, ⟨"b.py", "g", none, none⟩] 1
      (by decide)).2.1 ⟨"b.py", "g", none, none⟩ (by decide) (by decide),
    (caller_name_negative_skip false
      [⟨"a.py", "f", none, none⟩, ⟨"b.py", "g", none, none⟩] 3
      (by decide)).2.2 (by decide)⟩

/-- C10: in frozen-executable mode the module component is the dot-join of
every component of the normalized source file path — the leading directory
components unchanged and only the final component's extension stripped — and
the returned identity begins with that full dotted filesystem path. -/
theorem caller_name_frozen_dotted_path (stack : List Frame) (skip : Nat)
    (f : Frame) (p : String) (ps : List String)
    (h : stack.get? skip = some f)
    (hsplit : splitSep (normpath f.co_filename) = p :: ps) :
    (∃ parts' : List String,
        frozenModuleName f.co_filename = String.intercalate "." parts' ∧
        parts'.length = (p :: ps).length ∧
        parts'.dropLast = (p :: ps).dropLast ∧
        parts'.getLastD "" = splitextRoot ((p :: ps).getLastD "")) ∧
    (∃ t, caller_name true stack (skip : Int)
        = .ok (frozenModuleName f.co_filename ++ t)) := by
  constructor
  · refine ⟨(p :: ps).dropLast ++ [splitextRoot ((p :: ps).getLastD "")],
      ?_, ?_, ?_, ?_⟩
    · unfold frozenModuleName
      rw [hsplit]
    · simp
    · rw [List.dropLast_concat]
    · rw [List.getLastD_concat]
  · have hres := caller_name_resolves true stack skip f h
    obtain ⟨t, ht⟩ := intercalate_cons_exists_append
      (frozenModuleName f.co_filename)
      (f.self_class.toList ++ (if f.co_name = "<module>" then [] else [f.co_name]))
    refine ⟨t, ?_⟩
    rw [hres, buildName_eq]
    simp only [if_true, List.singleton_append, List.cons_append, List.append_assoc,
      List.nil_append]
    rw [ht]

/-- C10 witness: from a frozen frame whose source is `/usr/lib/app.py`, the
module component is `".usr.lib.app"` — all directory components kept, the
`.py` extension stripped — and the resolved identity begins with it. -/
theorem caller_name_frozen_dotted_path_witness :
    (∃ parts' : List String,
        frozenModuleName "/usr/lib/app.py" = String.intercalate "." parts' ∧
        parts'.length = (("" : String) :: ["usr", "lib", "app.py"]).length ∧
        parts'.dropLast = (("" : String) :: ["usr", "lib", "app.py"]).dropLast ∧
        parts'.getLastD ""
          = splitextRoot ((("" : String) :: ["usr", "lib", "app.py"]).getLastD "")) ∧
    (∃ t, caller_name true [⟨"/usr/lib/app.py", "f", none, none⟩] ((0 : Nat) : Int)
        = .ok (frozenModuleName "/usr/lib/app.py" ++ t)) :=
  caller_name_frozen_dotted_path [⟨"/usr/lib/app.py", "f", none, none⟩] 0
    ⟨"/usr/lib/app.py", "f", none, none⟩ "" ["usr", "lib", "app.py"] rfl (by decide)

end LoggingHelpers
